import Mathlib

/-!
# Verification of the federated remote-hooks state manager

Shallow embedding of the subscription/registry state manager from
`src/RemoteHookProvider.tsx` (Registry Store, Argument Channel, AvailableHooks,
HookExecutor) and of the Consumer Hook (`useRemoteHook`) whose source file is
absent from the repository snapshot and is therefore modelled from the spec.

Modelling conventions:
* JavaScript objects keyed by id (`state`, `availableHooks`, `argSubscriptions`)
  are embedded as insertion-ordered association lists; JS property deletion is
  `List.filter`, property insertion is append, and `{...prev, [id]: v}` keeps an
  existing key in place.
* `crypto.randomUUID()` is modelled by a monotone counter `nextId`, together
  with a ghost history `allocated` of every id ever returned by `subscribe`;
  the counter captures exactly the freshness guarantee the UUID provides.
* Callbacks (`notify`, argument listeners) are opaque identifiers; "invoking" a
  callback is recorded in an explicit output list, so theorems can speak about
  which callbacks were invoked, with which arguments, and in which order.
  Whether an argument listener throws is supplied externally as a predicate
  `fails`; the `try/catch` in `updateArgs` is modelled by recording the failing
  listeners in a separate "logged" list while the invocation sweep continues.
* Field values inside a RegistryEntry's `value` bag are drawn from an opaque
  type `α` with decidable equality (modelling JS strict equality `===`).
-/

namespace RemoteHooks

/-- Consumer ids (modelling the `crypto.randomUUID()` strings). -/
abbrev ConsumerId := Nat

/-- Opaque identifier for a `notify` callback handed to `subscribe`. -/
abbrev NotifyId := Nat

/-- Opaque identifier for an argument-listener callback. -/
abbrev ListenerId := Nat

/-- Opaque token standing for a loaded remote hook callable stored in
`availableHooks` (no claim applies a stored callable, so it stays opaque). -/
abbrev HookToken := Nat

/-- A JavaScript value held in a RegistryEntry's `value` slot: either a
non-object primitive (the initial `0` written by `subscribe`) or an object,
i.e. an insertion-ordered field bag. Field values are opaque `α`. -/
inductive JSValue (α : Type) where
  | num (n : Int)
  | obj (fields : List (String × α))
deriving DecidableEq, Repr

/-- The own enumerable fields of a JS value: spreading a number contributes
no properties, spreading an object contributes its fields. -/
def JSValue.fieldsOf {α : Type} : JSValue α → List (String × α)
  | .num _ => []
  | .obj l => l

/-- Embeds `type StateEntry = { id; value; notify }` from
`RemoteHookProvider.tsx`. -/
structure StateEntry (α : Type) where
  id : ConsumerId
  value : JSValue α
  notify : NotifyId
deriving DecidableEq, Repr

/-- Embeds `type ArgSubscription = { id; args; argNotifiers }`.  The JS `Set` of
notifiers iterates in insertion order and holds no duplicates, so it is
embedded as a duplicate-free insertion-ordered list. -/
structure ArgSubscription (α : Type) where
  id : ConsumerId
  args : List α
  argNotifiers : List ListenerId
deriving DecidableEq, Repr

/-- The whole mutable state owned by one `RemoteHookProvider` instance:
`state` (Registry Store), `availableHooks` (React state), `argSubscriptions`
(Argument Channel), plus the UUID-freshness model (`nextId`, ghost
`allocated`). -/
structure ProviderState (α : Type) where
  state : List (StateEntry α)
  availableHooks : List (ConsumerId × HookToken)
  argSubscriptions : List (ArgSubscription α)
  nextId : Nat
  allocated : List ConsumerId
deriving DecidableEq, Repr

/-- The freshly-mounted provider: all three stores empty. -/
def initState (α : Type) : ProviderState α :=
  { state := [], availableHooks := [], argSubscriptions := [],
    nextId := 0, allocated := [] }

/-- Lookup `state[id]` of a RegistryEntry. -/
def lookupEntry {α : Type} (ps : ProviderState α) (id : ConsumerId) :
    Option (StateEntry α) :=
  ps.state.find? (fun e => e.id = id)

/-- Lookup `availableHooks[id]` of the loaded callable token. -/
def lookupHook {α : Type} (ps : ProviderState α) (id : ConsumerId) :
    Option HookToken :=
  (ps.availableHooks.find? (fun kv => kv.1 = id)).map (fun kv => kv.2)

/-- Lookup `argSubscriptions[id]` of the ArgSubscription. -/
def lookupSub {α : Type} (ps : ProviderState α) (id : ConsumerId) :
    Option (ArgSubscription α) :=
  ps.argSubscriptions.find? (fun s => s.id = id)

/-- Embeds `subscribe(notify)` from `RemoteHookProvider.tsx`: allocate a fresh id and
store `state[id] = { id, value: 0, notify }`.  Returns the id together with
the successor state (the returned `unsubscribe` closure is `unsubscribe`
below, applied to this id). -/
def subscribe {α : Type} (ps : ProviderState α) (notify : NotifyId) :
    ConsumerId × ProviderState α :=
  let id := ps.nextId
  (id,
   { ps with
      state := ps.state ++ [{ id := id, value := .num 0, notify := notify }],
      nextId := ps.nextId + 1,
      allocated := ps.allocated ++ [id] })

/-- The `unsubscribe` closure returned by `subscribe`: `delete state[id]`,
remove `id` from `availableHooks` via `setAvailableHooks`, and
`delete argSubscriptions[id]`. -/
def unsubscribe {α : Type} (ps : ProviderState α) (id : ConsumerId) :
    ProviderState α :=
  { ps with
     state := ps.state.filter (fun e => ¬ e.id = id),
     availableHooks := ps.availableHooks.filter (fun kv => ¬ kv.1 = id),
     argSubscriptions := ps.argSubscriptions.filter (fun s => ¬ s.id = id) }

/-- One field of the spread `{...old, ...patch}`: a field of `old` keeps its
position and is overwritten when `patch` also has its key. -/
def overrideWith {α : Type} (patch : List (String × α)) (kv : String × α) :
    String × α :=
  match patch.find? (fun pv => pv.1 = kv.1) with
  | some pv => (kv.1, pv.2)
  | none => kv

/-- JavaScript object spread `{...old, ...patch}`: the fields of `old` in
order (overwritten in place where `patch` repeats a key), followed by the
fields of `patch` whose keys are new. -/
def spreadMerge {α : Type} (old patch : List (String × α)) :
    List (String × α) :=
  old.map (overrideWith patch) ++
    patch.filter (fun pv => (old.find? (fun kv => kv.1 = pv.1)).isNone)

/-- Property access `bag[k]` on a field bag (first occurrence wins). -/
def lookupField {α : Type} (l : List (String × α)) (k : String) : Option α :=
  (l.find? (fun kv => kv.1 = k)).map (fun kv => kv.2)

/-- Property access `v[k]` on a JS value (a number has no fields). -/
def JSValue.getField {α : Type} (v : JSValue α) (k : String) : Option α :=
  lookupField v.fieldsOf k

/-- Embeds `updateState(id, value)` from `RemoteHookProvider.tsx`: return unchanged
if `state[id]` is absent; otherwise `entry.value = {...entry.value, ...value}`
and `entry.notify()`.  The second component lists the notify callbacks
invoked during the call, in order. -/
def updateState {α : Type} (ps : ProviderState α) (id : ConsumerId)
    (patch : List (String × α)) : ProviderState α × List NotifyId :=
  match ps.state.find? (fun e => e.id = id) with
  | none => (ps, [])
  | some e =>
    ({ ps with
        state := ps.state.map (fun e2 =>
          if e2.id = id then
            { e2 with value := .obj (spreadMerge e2.value.fieldsOf patch) }
          else e2) },
     [e.notify])

/-- Embeds `getState(id)` from `RemoteHookProvider.tsx`: `state[id]?.value`. -/
def getState {α : Type} (ps : ProviderState α) (id : ConsumerId) :
    Option (JSValue α) :=
  (lookupEntry ps id).map (fun e => e.value)

/-- Reads `getState(id)?.[k]`: the field `k` of the consumer's value bag. -/
def getStateField {α : Type} (ps : ProviderState α) (id : ConsumerId)
    (k : String) : Option α :=
  (getState ps id).bind (fun v => v.getField k)

/-- Embeds `updateArgs(id, args)` from `RemoteHookProvider.tsx`: lazily create the
ArgSubscription if absent (storing `args` and an empty notifier set),
otherwise replace the stored args wholesale; then iterate over the notifier
set in insertion order, invoking each listener with the new args, each call
wrapped in a `try/catch` that logs a failing listener's error and continues.
`fails` says which listeners throw.  Result: (new state, the invocations
performed in order, the listeners whose exception was caught and logged). -/
def updateArgs {α : Type} (ps : ProviderState α) (id : ConsumerId)
    (args : List α) (fails : ListenerId → Bool) :
    ProviderState α × List (ListenerId × List α) × List ListenerId :=
  match ps.argSubscriptions.find? (fun s => s.id = id) with
  | none =>
    ({ ps with argSubscriptions := ps.argSubscriptions ++
        [{ id := id, args := args, argNotifiers := [] }] },
     [], [])
  | some sub =>
    ({ ps with argSubscriptions := ps.argSubscriptions.map (fun s =>
        if s.id = id then { s with args := args } else s) },
     sub.argNotifiers.map (fun c => (c, args)),
     sub.argNotifiers.filter fails)

/-- Embeds `subscribeToArgs(id, callback)` from `RemoteHookProvider.tsx`: lazily
create the ArgSubscription with empty args if absent; `Set.add` the callback
(no duplicate, insertion order preserved); if the current args are non-empty,
invoke the callback immediately with them.  Result: (new state, the
immediate catch-up invocations).  The returned removal closure is not needed
by any claim and is not modelled. -/
def subscribeToArgs {α : Type} (ps : ProviderState α) (id : ConsumerId)
    (cb : ListenerId) : ProviderState α × List (ListenerId × List α) :=
  let sub := (ps.argSubscriptions.find? (fun s => s.id = id)).getD
    { id := id, args := [], argNotifiers := [] }
  let sub' := { sub with argNotifiers :=
    if sub.argNotifiers.contains cb then sub.argNotifiers
    else sub.argNotifiers ++ [cb] }
  let subs' :=
    match ps.argSubscriptions.find? (fun s => s.id = id) with
    | some _ =>
      ps.argSubscriptions.map (fun s => if s.id = id then sub' else s)
    | none => ps.argSubscriptions ++ [sub']
  ({ ps with argSubscriptions := subs' },
   if sub'.args.length > 0 then [(cb, sub'.args)] else [])

/-- JS object-spread insertion `{...prev, [id]: v}`: an existing key keeps
its position and gets the new value; a new key is appended. -/
def setKey {β : Type} (l : List (ConsumerId × β)) (id : ConsumerId) (v : β) :
    List (ConsumerId × β) :=
  if l.any (fun kv => kv.1 = id) then
    l.map (fun kv => if kv.1 = id then (id, v) else kv)
  else l ++ [(id, v)]

/-- Embeds `registerHook(id, hookFunction)` from `RemoteHookProvider.tsx`:
`setAvailableHooks(prev => ({...prev, [id]: hookFunction}))`. -/
def registerHook {α : Type} (ps : ProviderState α) (id : ConsumerId)
    (fn : HookToken) : ProviderState α :=
  { ps with availableHooks := setKey ps.availableHooks id fn }

/-- What one render of `HookExecutor` does, as observable behaviour:
which invocations of the remote callable it performs, the result produced,
the `updateState` writes committed by its result effect, and its rendered
output. -/
structure ExecutorStep (α : Type) where
  hookCalls : List (List α)
  hookResult : α
  stateWrites : List (ConsumerId × List (String × α))
  rendered : Option Unit
deriving Repr

/-- One render of `HookExecutor` from `RemoteHookProvider.tsx`: it computes
`hookResult = hookFunction(...args)` unconditionally (the call is outside any
branch, so the call list is `[args]` whatever the inputs), then the effect
keyed on `[hookResult, id, updateState]` re-runs exactly when the result
differs from the previous render's result and writes
`updateState(id, { hookResult })`; the component returns `null`. -/
def hookExecutorRender {α : Type} [DecidableEq α] (id : ConsumerId)
    (hookFunction : List α → α) (args : List α) (prevResult : Option α) :
    ExecutorStep α :=
  let r := hookFunction args
  { hookCalls := [args]
    hookResult := r
    stateWrites :=
      if prevResult = some r then [] else [(id, [("hookResult", r)])]
    rendered := none }

/-- Outcome of the asynchronous module resolution. -/
inductive LoadOutcome (α : Type) where
  | success (hook : HookToken)
  | failure (err : α)

/-- Modelled from the spec: the Consumer Hook source (`useRemoteHook.tsx`) is
absent from the repository snapshot; this follows §4.5 of the spec and the
README's implementation sketch.  The continuation that runs when the
module-resolution promise settles: gated on the still-mounted flag, on
success it writes `{loading:false, error:null}`, forwards the initial args
through the Argument Channel, and calls `registerHook`; on failure it writes
`{loading:false, error}`; with the flag cleared it performs nothing at all.
`vFalse`/`vNull` stand for the JS literals `false`/`null`.  Results: (new
provider state, notify callbacks invoked, argument-listener invocations). -/
def resolveContinuation {α : Type} (vFalse vNull : α) (ps : ProviderState α)
    (isMounted : Bool) (id : ConsumerId) (args : List α)
    (outcome : LoadOutcome α) (fails : ListenerId → Bool) :
    ProviderState α × List NotifyId × List (ListenerId × List α) :=
  if isMounted then
    match outcome with
    | .success fn =>
      let r1 := updateState ps id [("loading", vFalse), ("error", vNull)]
      let r2 := updateArgs r1.1 id args fails
      (registerHook r2.1 id fn, r1.2, r2.2.1)
    | .failure err =>
      let r1 := updateState ps id [("loading", vFalse), ("error", err)]
      (r1.1, r1.2, [])
  else (ps, [], [])

/-- Modelled from the spec: `useRemoteHook`'s argument change detection
(README "Argument Change Detection"; `useRemoteHook.tsx` absent from the
snapshot).  Changed iff the length differs from the last-forwarded sequence
or some positional element differs under strict equality. -/
def argsChanged {α : Type} [DecidableEq α] (prev next : List α) : Bool :=
  decide (¬ next.length = prev.length) ||
    (List.range next.length).any (fun i => decide (¬ next[i]? = prev[i]?))

/-- Modelled from the spec: one render's argument-forwarding step of the
Consumer Hook (`useRemoteHook.tsx` absent from the snapshot): forward the
caller-supplied sequence via `updateArgs` only when the shallow comparison
against the last-forwarded sequence (`argsRef`) detects a change.
Result: (new `argsRef`, the `updateArgs` calls performed). -/
def forwardArgsStep {α : Type} [DecidableEq α] (id : ConsumerId)
    (argsRef args : List α) : List α × List (ConsumerId × List α) :=
  if argsChanged argsRef args then (args, [(id, args)]) else (argsRef, [])

/-- The six store operations exposed by the provider, as one alphabet for
reasoning about arbitrary call sequences.  `updateArgs`'s state change does
not depend on which listeners throw, so the op fixes `fails` to constantly
false. -/
inductive Op (α : Type) where
  | subscribeOp (notify : NotifyId)
  | unsubscribeOp (id : ConsumerId)
  | updateStateOp (id : ConsumerId) (patch : List (String × α))
  | registerHookOp (id : ConsumerId) (fn : HookToken)
  | updateArgsOp (id : ConsumerId) (args : List α)
  | subscribeToArgsOp (id : ConsumerId) (cb : ListenerId)

/-- Effect of one store operation on the provider state. -/
def applyOp {α : Type} (ps : ProviderState α) : Op α → ProviderState α
  | .subscribeOp n => (subscribe ps n).2
  | .unsubscribeOp i => unsubscribe ps i
  | .updateStateOp i p => (updateState ps i p).1
  | .registerHookOp i f => registerHook ps i f
  | .updateArgsOp i a => (updateArgs ps i a (fun _ => false)).1
  | .subscribeToArgsOp i c => (subscribeToArgs ps i c).1

/-- There is an AvailableHooks entry for `id`. -/
abbrev hasHook {α : Type} (ps : ProviderState α) (id : ConsumerId) : Prop :=
  ∃ kv ∈ ps.availableHooks, kv.1 = id

/-- There is a RegistryEntry for `id`. -/
abbrev hasEntry {α : Type} (ps : ProviderState α) (id : ConsumerId) : Prop :=
  ∃ e ∈ ps.state, e.id = id

/-- The protocol condition under which the system calls each operation:
`registerHook(id, ·)` is only invoked while a RegistryEntry for `id` is
live (`useRemoteHook` guarantees this through the still-mounted gate, since
only its unmount cleanup removes the entry); every other operation is called
unconditionally. -/
def opAllowed {α : Type} (ps : ProviderState α) : Op α → Prop
  | .registerHookOp i _ => hasEntry ps i
  | _ => True

/-- States reachable from `start` by operation sequences respecting
`opAllowed`. -/
inductive ReachableVia {α : Type} :
    ProviderState α → ProviderState α → Prop where
  | refl (ps : ProviderState α) : ReachableVia ps ps
  | step {start ps : ProviderState α} (op : Op α) :
      ReachableVia start ps → opAllowed ps op →
      ReachableVia start (applyOp ps op)

/-- Id bounds making the `nextId` counter a faithful freshness model: every
id in the Registry Store and every id ever handed out is below `nextId`. -/
abbrev WF {α : Type} (ps : ProviderState α) : Prop :=
  (∀ e ∈ ps.state, e.id < ps.nextId) ∧ (∀ i ∈ ps.allocated, i < ps.nextId)

/-- The per-id uniqueness of all three stores plus the
AvailableHooks-needs-RegistryEntry containment. -/
abbrev StoreInv {α : Type} (ps : ProviderState α) : Prop :=
  (ps.state.map (fun e => e.id)).Nodup ∧
  (ps.availableHooks.map (fun kv => kv.1)).Nodup ∧
  (ps.argSubscriptions.map (fun s => s.id)).Nodup ∧
  (∀ id, hasHook ps id → hasEntry ps id)

/-- Combined inductive invariant. -/
abbrev Inv {α : Type} (ps : ProviderState α) : Prop := WF ps ∧ StoreInv ps

end RemoteHooks

namespace RemoteHooks

/-- The result of `find?` only depends on the pointwise behaviour of its
predicate. -/
theorem find?_pred_congr {β : Type} (l : List β) {p q : β → Bool}
    (h : ∀ x, p x = q x) : l.find? p = l.find? q := by
  rw [funext h]

/-- The spread `{...old, ...patch}` keeps the keys of `old`'s fields. -/
theorem overrideWith_fst {α : Type} (patch : List (String × α))
    (kv : String × α) : (overrideWith patch kv).1 = kv.1 := by
  unfold overrideWith
  cases patch.find? (fun pv => pv.1 = kv.1) <;> rfl

/-- Lookup in a spread-merged bag: the patch wins, otherwise the old bag. -/
theorem lookupField_spreadMerge {α : Type} (old patch : List (String × α))
    (k : String) :
    lookupField (spreadMerge old patch) k =
      (lookupField patch k).or (lookupField old k) := by
  unfold lookupField spreadMerge
  rw [List.find?_append, List.find?_map, List.find?_filter]
  have hcomp :
      ((fun kv => decide ((kv : String × α).1 = k)) ∘ overrideWith patch)
        = fun kv => decide (kv.1 = k) := by
    funext kv
    simp [Function.comp, overrideWith_fst]
  rw [hcomp]
  cases hold : old.find? (fun kv => kv.1 = k) with
  | some e =>
    have he : e.1 = k := by simpa using List.find?_some hold
    simp only [Option.map_some', Option.or_some]
    unfold overrideWith
    rw [he]
    cases hp : patch.find? (fun pv => pv.1 = k) with
    | some pv => simp [hp]
    | none => simp [hp]
  | none =>
    simp only [Option.map_none', Option.none_or, Option.or_none]
    apply congrArg
    apply find?_pred_congr
    intro pv
    by_cases hpv : pv.1 = k
    · simp only [hpv, hold]
      simp
    · simp [hpv]

/-- Applying `updateState` at a present entry rewrites exactly that entry's value to
the spread merge, leaving id and notify untouched. -/
theorem lookupEntry_updateState_self {α : Type} (ps : ProviderState α)
    (id : ConsumerId) (patch : List (String × α)) (e : StateEntry α)
    (h : lookupEntry ps id = some e) :
    lookupEntry (updateState ps id patch).1 id =
      some { e with value := .obj (spreadMerge e.value.fieldsOf patch) } := by
  unfold lookupEntry at h ⊢
  unfold updateState
  rw [h]
  simp only [List.find?_map]
  have hcomp : ((fun e2 => decide ((e2 : StateEntry α).id = id)) ∘
      (fun e2 => if e2.id = id then
        { e2 with value := JSValue.obj (spreadMerge e2.value.fieldsOf patch) }
      else e2)) = fun e2 => decide (e2.id = id) := by
    funext e2
    by_cases h2 : e2.id = id <;> simp [Function.comp, h2]
  rw [hcomp, h]
  have hid : e.id = id := by simpa using List.find?_some h
  simp [hid]

/-- Applying `updateState` leaves every entry with a different id unchanged. -/
theorem lookupEntry_updateState_ne {α : Type} (ps : ProviderState α)
    (id j : ConsumerId) (patch : List (String × α)) (hj : ¬ j = id) :
    lookupEntry (updateState ps id patch).1 j = lookupEntry ps j := by
  unfold updateState
  cases hfind : ps.state.find? (fun e => e.id = id) with
  | none => rfl
  | some e =>
    unfold lookupEntry
    simp only [List.find?_map]
    have hcomp : ((fun e2 => decide ((e2 : StateEntry α).id = j)) ∘
        (fun e2 => if e2.id = id then
          { e2 with value := JSValue.obj (spreadMerge e2.value.fieldsOf patch) }
        else e2)) = fun e2 => decide (e2.id = j) := by
      funext e2
      by_cases h2 : e2.id = id <;> simp [Function.comp, h2]
    rw [hcomp]
    cases hfj : ps.state.find? (fun e2 => e2.id = j) with
    | none => rfl
    | some e2 =>
      have h2 : e2.id = j := by simpa using List.find?_some hfj
      simp [h2, hj]

/-- C2: `updateState(id, patch)` is a no-op (state and notifications) when no
RegistryEntry exists for `id`; otherwise it replaces the entry's value by the
shallow merge of the old value and the patch (patch fields overwrite, old
fields persist), invokes exactly that entry's notify callback, leaves every
other id's entry unchanged, and in particular `updateState(id,{a:va})` then
`updateState(id,{b:vb})` yields a state whose `a` field is `va` and whose `b`
field is `vb`. -/
theorem updateState_spec {α : Type} (ps : ProviderState α) (id : ConsumerId)
    (patch : List (String × α)) :
    (lookupEntry ps id = none → updateState ps id patch = (ps, [])) ∧
    (∀ e, lookupEntry ps id = some e →
      getState (updateState ps id patch).1 id
          = some (.obj (spreadMerge e.value.fieldsOf patch)) ∧
      (∀ k, getStateField (updateState ps id patch).1 id k
          = (lookupField patch k).or (e.value.getField k)) ∧
      (updateState ps id patch).2 = [e.notify]) ∧
    (∀ j, ¬ j = id →
      lookupEntry (updateState ps id patch).1 j = lookupEntry ps j) ∧
    (∀ (va vb : α) e, lookupEntry ps id = some e →
      getStateField
        (updateState (updateState ps id [("a", va)]).1 id [("b", vb)]).1
        id "a" = some va ∧
      getStateField
        (updateState (updateState ps id [("a", va)]).1 id [("b", vb)]).1
        id "b" = some vb) := by
  refine ⟨?_, ?_, ?_, ?_⟩
  · intro h
    unfold lookupEntry at h
    unfold updateState
    rw [h]
  · intro e he
    refine ⟨?_, ?_, ?_⟩
    · unfold getState
      rw [lookupEntry_updateState_self ps id patch e he]
      rfl
    · intro k
      unfold getStateField getState
      rw [lookupEntry_updateState_self ps id patch e he]
      simp only [Option.map_some', Option.some_bind]
      show lookupField (spreadMerge e.value.fieldsOf patch) k = _
      rw [lookupField_spreadMerge]
      rfl
    · unfold lookupEntry at he
      unfold updateState
      rw [he]
  · intro j hj
    exact lookupEntry_updateState_ne ps id j patch hj
  · intro va vb e he
    have h1 := lookupEntry_updateState_self ps id [("a", va)] e he
    have h2 := lookupEntry_updateState_self (updateState ps id [("a", va)]).1
      id [("b", vb)] _ h1
    constructor
    · unfold getStateField getState
      rw [h2]
      simp only [Option.map_some', Option.some_bind]
      show lookupField (spreadMerge
        (JSValue.fieldsOf (.obj (spreadMerge e.value.fieldsOf [("a", va)])))
        [("b", vb)]) "a" = some va
      rw [show JSValue.fieldsOf (JSValue.obj
            (spreadMerge e.value.fieldsOf [("a", va)]))
          = spreadMerge e.value.fieldsOf [("a", va)] from rfl]
      rw [lookupField_spreadMerge, lookupField_spreadMerge]
      have hba : lookupField [("b", vb)] "a" = none := by
        simp [lookupField, List.find?]
      have haa : lookupField [("a", va)] "a" = some va := by
        simp [lookupField, List.find?]
      rw [hba, haa]
      rfl
    · unfold getStateField getState
      rw [h2]
      simp only [Option.map_some', Option.some_bind]
      show lookupField (spreadMerge
        (JSValue.fieldsOf (.obj (spreadMerge e.value.fieldsOf [("a", va)])))
        [("b", vb)]) "b" = some vb
      rw [lookupField_spreadMerge]
      have hbb : lookupField [("b", vb)] "b" = some vb := by
        simp [lookupField, List.find?]
      rw [hbb]
      rfl

/-- C2 witness: on a freshly subscribed consumer, `updateState` with `{a:1}`
then `{b:2}` produces a value with `a = 1` and `b = 2`. -/
theorem updateState_spec_witness :
    getStateField
      (updateState (updateState (subscribe (initState Nat) 7).2 0
        [("a", 1)]).1 0 [("b", 2)]).1 0 "a" = some 1 ∧
    getStateField
      (updateState (updateState (subscribe (initState Nat) 7).2 0
        [("a", 1)]).1 0 [("b", 2)]).1 0 "b" = some 2 :=
  (updateState_spec (subscribe (initState Nat) 7).2 0 []).2.2.2 1 2
    { id := 0, value := .num 0, notify := 7 } (by decide)

/-- After `updateArgs(id, args)` the ArgSubscription for `id` exists, holds
exactly `args`, and keeps the previously registered notifiers (none if the
subscription was created lazily by this call). -/
theorem lookupSub_updateArgs {α : Type} (ps : ProviderState α)
    (id : ConsumerId) (args : List α) (fails : ListenerId → Bool) :
    lookupSub (updateArgs ps id args fails).1 id =
      some { id := id, args := args,
             argNotifiers :=
               ((lookupSub ps id).map (fun s => s.argNotifiers)).getD [] } := by
  unfold lookupSub updateArgs
  cases hfind : ps.argSubscriptions.find? (fun s => s.id = id) with
  | none => simp [List.find?_append, hfind]
  | some sub =>
    have hid : sub.id = id := by simpa using List.find?_some hfind
    simp only [List.find?_map]
    have hcomp : ((fun s => decide ((s : ArgSubscription α).id = id)) ∘
        (fun s => if s.id = id then { s with args := args } else s))
        = fun s => decide (s.id = id) := by
      funext s
      by_cases h2 : s.id = id <;> simp [Function.comp, h2]
    rw [hcomp, hfind]
    simp [hid]

/-- C4: `updateArgs(id, args)` stores `args` wholesale (not merged), then
invokes every listener registered for `id` with the new args, in registration
order; a listener designated as throwing is logged at the broadcast site, and
the invocation sweep — being the full notifier list independently of
`fails` — still reaches every remaining listener. -/
theorem updateArgs_spec {α : Type} (ps : ProviderState α) (id : ConsumerId)
    (args : List α) (fails : ListenerId → Bool) :
    (lookupSub (updateArgs ps id args fails).1 id).map
        (fun s => s.args) = some args ∧
    (updateArgs ps id args fails).2.1 =
      (((lookupSub ps id).map (fun s => s.argNotifiers)).getD []).map
        (fun c => (c, args)) ∧
    (updateArgs ps id args fails).2.2 =
      (((lookupSub ps id).map (fun s => s.argNotifiers)).getD []).filter
        fails ∧
    (lookupSub (updateArgs ps id args fails).1 id).map
        (fun s => s.argNotifiers) =
      some (((lookupSub ps id).map (fun s => s.argNotifiers)).getD []) := by
  refine ⟨?_, ?_, ?_, ?_⟩
  · rw [lookupSub_updateArgs]
    rfl
  · unfold updateArgs lookupSub
    cases hfind : ps.argSubscriptions.find? (fun s => s.id = id) <;> simp
  · unfold updateArgs lookupSub
    cases hfind : ps.argSubscriptions.find? (fun s => s.id = id) <;> simp
  · rw [lookupSub_updateArgs]
    rfl

/-- C3: once `updateArgs(id, A)` has stored a non-empty `A`, a subsequent
`subscribeToArgs(id, cb)` synchronously invokes `cb(A)` exactly once at
subscription time; when the stored args are empty or no ArgSubscription
exists, `subscribeToArgs` registers `cb` without any immediate invocation. -/
theorem subscribeToArgs_spec {α : Type} (ps : ProviderState α)
    (id : ConsumerId) (A : List α) (cb : ListenerId)
    (fails : ListenerId → Bool) :
    (¬ A = [] →
      (subscribeToArgs (updateArgs ps id A fails).1 id cb).2 = [(cb, A)]) ∧
    ((lookupSub ps id = none ∨
        ∃ sub, lookupSub ps id = some sub ∧ sub.args = []) →
      (subscribeToArgs ps id cb).2 = [] ∧
      ∃ sub', lookupSub (subscribeToArgs ps id cb).1 id = some sub' ∧
        cb ∈ sub'.argNotifiers) := by
  constructor
  · intro hA
    have hstore := lookupSub_updateArgs ps id A fails
    unfold lookupSub at hstore
    unfold subscribeToArgs
    rw [hstore]
    have : 0 < A.length := List.length_pos.mpr hA
    simp [this]
  · intro h
    rcases h with h | ⟨sub, hsub, hargs⟩
    · unfold lookupSub at h
      unfold subscribeToArgs lookupSub
      rw [h]
      refine ⟨rfl, { id := id, args := [], argNotifiers := [cb] }, ?_, ?_⟩
      · rw [List.find?_append, h]
        simp
      · simp
    · have hid : sub.id = id := by
        unfold lookupSub at hsub
        simpa using List.find?_some hsub
      unfold lookupSub at hsub
      unfold subscribeToArgs lookupSub
      rw [hsub]
      simp only [Option.getD_some]
      constructor
      · simp [hargs]
      · simp only [List.find?_map]
        have hcomp : ((fun s => decide ((s : ArgSubscription α).id = id)) ∘
            (fun s => if s.id = id then
              { sub with argNotifiers :=
                if sub.argNotifiers.contains cb then sub.argNotifiers
                else sub.argNotifiers ++ [cb] }
            else s)) = fun s => decide (s.id = id) := by
          funext s
          by_cases h2 : s.id = id <;> simp [Function.comp, h2, hid]
        rw [hcomp, hsub]
        refine ⟨_, rfl, ?_⟩
        simp only [hid, if_true]
        by_cases hc : sub.argNotifiers.contains cb
        · simp only [hc, if_true]
          exact List.mem_of_elem_eq_true hc
        · have hm : ¬ cb ∈ sub.argNotifiers := by simpa using hc
          simp [hm]

/-- C8 counterexample: calling `updateArgs` for an id with no ArgSubscription
does not leave the Argument Channel unchanged — it creates a fresh
ArgSubscription entry for that id. -/
theorem updateArgs_absent_counterexample :
    lookupSub (initState Nat) 0 = none ∧
    lookupSub (updateArgs (initState Nat) 0 [5] (fun _ => false)).1 0 =
      some { id := 0, args := [5], argNotifiers := [] } := by
  constructor
  · rfl
  · rfl

/-- C8 amended: `updateArgs(id, args)` for an id with no ArgSubscription
raises no error and invokes no listener (and logs none), and leaves the
Registry Store and AvailableHooks unchanged, but it does create a fresh
ArgSubscription for that id holding `args` and an empty listener set. -/
theorem updateArgs_absent_spec {α : Type} (ps : ProviderState α)
    (id : ConsumerId) (args : List α) (fails : ListenerId → Bool)
    (h : lookupSub ps id = none) :
    updateArgs ps id args fails =
      ({ ps with argSubscriptions := ps.argSubscriptions ++
          [{ id := id, args := args, argNotifiers := [] }] },
       [], []) := by
  unfold lookupSub at h
  unfold updateArgs
  rw [h]

/-- C8 amended, witness: from the empty provider state. -/
theorem updateArgs_absent_spec_witness :
    updateArgs (initState Nat) 3 [1, 2] (fun _ => false) =
      ({ initState Nat with argSubscriptions :=
          [{ id := 3, args := [1, 2], argNotifiers := [] }] },
       [], []) :=
  updateArgs_absent_spec (initState Nat) 3 [1, 2] (fun _ => false) rfl

/-- C3 witness: catch-up delivery of `[4]` to listener `9` on a fresh id. -/
theorem subscribeToArgs_spec_witness :
    (subscribeToArgs
      (updateArgs (initState Nat) 0 [4] (fun _ => false)).1 0 9).2 =
      [(9, [4])] :=
  (subscribeToArgs_spec (initState Nat) 0 [4] 9 (fun _ => false)).1
    (by decide)

/-- Applying `unsubscribe` leaves no AvailableHooks entry for the id. -/
theorem lookupHook_unsubscribe {α : Type} (ps : ProviderState α)
    (id : ConsumerId) : lookupHook (unsubscribe ps id) id = none := by
  simp [lookupHook, unsubscribe, List.find?_eq_none]

/-- C5: when a Consumer Hook unmounts before its module-resolution promise
settles (its cleanup has run `unsubscribe` and cleared the still-mounted
flag), the post-resolution continuation performs no store writes and no
notifications whatever the outcome, and no AvailableHooks entry exists for
its id afterwards. -/
theorem unmounted_resolution_spec {α : Type} (vFalse vNull : α)
    (ps : ProviderState α) (id : ConsumerId) (args : List α)
    (outcome : LoadOutcome α) (fails : ListenerId → Bool) :
    resolveContinuation vFalse vNull (unsubscribe ps id) false id args
        outcome fails = (unsubscribe ps id, [], []) ∧
    lookupHook (resolveContinuation vFalse vNull (unsubscribe ps id) false id
        args outcome fails).1 id = none := by
  refine ⟨rfl, ?_⟩
  show lookupHook (unsubscribe ps id) id = none
  exact lookupHook_unsubscribe ps id

/-- C7: on every render of `HookExecutor` the remote callable is invoked
unconditionally, exactly once, with the current args; the `{hookResult}`
write happens exactly when the produced result differs from the previous
render's result; and the component renders no output. -/
theorem hookExecutor_spec {α : Type} [DecidableEq α] (id : ConsumerId)
    (hookFunction : List α → α) (args : List α) (prevResult : Option α) :
    (hookExecutorRender id hookFunction args prevResult).hookCalls =
      [args] ∧
    (hookExecutorRender id hookFunction args prevResult).hookResult =
      hookFunction args ∧
    (hookExecutorRender id hookFunction args prevResult).stateWrites =
      (if prevResult = some (hookFunction args) then []
       else [(id, [("hookResult", hookFunction args)])]) ∧
    (hookExecutorRender id hookFunction args prevResult).rendered = none :=
  ⟨rfl, rfl, rfl, rfl⟩

/-- The shallow comparison reports no change exactly on value-equal
sequences. -/
theorem argsChanged_eq_false_iff {α : Type} [DecidableEq α]
    (prev next : List α) : argsChanged prev next = false ↔ next = prev := by
  unfold argsChanged
  rw [Bool.or_eq_false_iff]
  constructor
  · rintro ⟨h1, h2⟩
    have hlen : next.length = prev.length := by simpa using h1
    have h2' : ∀ i ∈ List.range next.length, next[i]? = prev[i]? := by
      intro i hi
      have := List.any_eq_false.mp h2 i hi
      simpa using this
    apply List.ext_getElem?
    intro n
    by_cases hn : n < next.length
    · exact h2' n (List.mem_range.mpr hn)
    · rw [List.getElem?_eq_none (Nat.le_of_not_lt hn),
        List.getElem?_eq_none (by rw [← hlen]; exact Nat.le_of_not_lt hn)]
  · rintro rfl
    refine ⟨by simp, ?_⟩
    rw [List.any_eq_false]
    intro i hi
    simp

/-- C6: re-rendering the Consumer Hook with a sequence of the same length
whose positional elements all equal the last-forwarded ones triggers no
`updateArgs` call (even though the caller constructed a fresh array); a
sequence with some differing positional element triggers exactly one
`updateArgs` call carrying the new sequence. -/
theorem forwardArgs_spec {α : Type} [DecidableEq α] (id : ConsumerId)
    (argsRef args : List α) :
    (args.length = argsRef.length → (∀ i : Nat, args[i]? = argsRef[i]?) →
      forwardArgsStep id argsRef args = (argsRef, [])) ∧
    ((∃ i : Nat, ¬ args[i]? = argsRef[i]?) →
      forwardArgsStep id argsRef args = (args, [(id, args)])) := by
  constructor
  · intro hlen helt
    have heq : args = argsRef := List.ext_getElem? helt
    unfold forwardArgsStep
    rw [(argsChanged_eq_false_iff argsRef args).mpr heq]
    simp
  · rintro ⟨i, hi⟩
    have hne : ¬ args = argsRef := fun h => hi (by rw [h])
    have hch : argsChanged argsRef args = true := by
      cases hch : argsChanged argsRef args
      · exact absurd ((argsChanged_eq_false_iff argsRef args).mp hch) hne
      · rfl
    unfold forwardArgsStep
    rw [hch]
    simp

/-- C6 witness: `[1,2]` re-sent as a fresh `[1,2]` forwards nothing;
`[1,3]` forwards exactly once. -/
theorem forwardArgs_spec_witness :
    forwardArgsStep 0 [1, 2] ([1, 2] : List Nat) = ([1, 2], []) ∧
    forwardArgsStep 0 [1, 2] ([1, 3] : List Nat) =
      ([1, 3], [(0, [1, 3])]) :=
  ⟨(forwardArgs_spec 0 [1, 2] [1, 2]).1 rfl (fun _ => rfl),
   (forwardArgs_spec 0 [1, 2] [1, 3]).2 ⟨1, by decide⟩⟩

/-- C9: `subscribe` allocates a fresh ConsumerId, different from every id
previously handed out, and creates the RegistryEntry with the initial value
`0` — a value with no fields — so `getState` immediately after `subscribe`
returns a value containing no fields. -/
theorem subscribe_spec {α : Type} (ps : ProviderState α) (notify : NotifyId)
    (hwf : WF ps) :
    ¬ (subscribe ps notify).1 ∈ ps.allocated ∧
    getState (subscribe ps notify).2 (subscribe ps notify).1 =
      some (.num 0) ∧
    JSValue.fieldsOf (JSValue.num 0 : JSValue α) = [] := by
  refine ⟨?_, ?_, rfl⟩
  · intro hmem
    exact absurd (hwf.2 _ hmem) (Nat.lt_irrefl _)
  · unfold getState lookupEntry subscribe
    simp only [List.find?_append]
    have hold : ps.state.find? (fun e => e.id = ps.nextId) = none := by
      rw [List.find?_eq_none]
      intro e he
      simp only [decide_eq_true_eq]
      exact Nat.ne_of_lt (hwf.1 e he)
    rw [hold]
    simp

/-- C9 witness: the first subscription on a fresh provider. -/
theorem subscribe_spec_witness :
    ¬ (subscribe (initState Nat) 3).1 ∈ (initState Nat).allocated ∧
    getState (subscribe (initState Nat) 3).2
      (subscribe (initState Nat) 3).1 = some (.num 0) ∧
    JSValue.fieldsOf (JSValue.num 0 : JSValue Nat) = [] :=
  subscribe_spec (initState Nat) 3 (by constructor <;> simp [initState])

/-- Appending a fresh element keeps a list duplicate-free. -/
theorem nodup_append_singleton {β : Type} {l : List β} {a : β}
    (h : l.Nodup) (ha : ¬ a ∈ l) : (l ++ [a]).Nodup := by
  refine List.Nodup.append h (List.nodup_singleton a) ?_
  intro x hx hxa
  rw [List.mem_singleton] at hxa
  exact ha (hxa ▸ hx)

/-- An in-place update that preserves keys preserves the key list. -/
theorem map_keys_update {β : Type} (l : List β) (f : β → β) (g : β → Nat)
    (h : ∀ x, g (f x) = g x) : (l.map f).map g = l.map g := by
  rw [List.map_map]
  exact List.map_congr_left (fun x _ => h x)

/-- The freshly-mounted provider satisfies the invariant. -/
theorem Inv_initState (α : Type) : Inv (initState α) := by
  refine ⟨⟨?_, ?_⟩, ?_, ?_, ?_, ?_⟩ <;> simp [initState, hasHook, hasEntry]

/-- The operation `subscribe` preserves the invariant. -/
theorem Inv_subscribe {α : Type} (ps : ProviderState α) (n : NotifyId)
    (h : Inv ps) : Inv (subscribe ps n).2 := by
  obtain ⟨⟨hw1, hw2⟩, hs, ha, hg, hc⟩ := h
  unfold subscribe
  refine ⟨⟨?_, ?_⟩, ?_, ha, hg, ?_⟩
  · intro e he
    rcases List.mem_append.mp he with h1 | h1
    · exact Nat.lt_succ_of_lt (hw1 e h1)
    · rw [List.mem_singleton] at h1
      subst h1
      exact Nat.lt_succ_self _
  · intro i hi
    rcases List.mem_append.mp hi with h1 | h1
    · exact Nat.lt_succ_of_lt (hw2 i h1)
    · rw [List.mem_singleton] at h1
      subst h1
      exact Nat.lt_succ_self _
  · rw [List.map_append]
    refine nodup_append_singleton hs ?_
    intro hmem
    rw [List.mem_map] at hmem
    obtain ⟨e, he, hid⟩ := hmem
    have hid' : e.id = ps.nextId := hid
    exact absurd hid' (Nat.ne_of_lt (hw1 e he))
  · intro id hh
    obtain ⟨e, he, hid⟩ := hc id hh
    exact ⟨e, List.mem_append_left _ he, hid⟩

/-- The operation `unsubscribe` preserves the invariant. -/
theorem Inv_unsubscribe {α : Type} (ps : ProviderState α) (i : ConsumerId)
    (h : Inv ps) : Inv (unsubscribe ps i) := by
  obtain ⟨⟨hw1, hw2⟩, hs, ha, hg, hc⟩ := h
  unfold unsubscribe
  refine ⟨⟨?_, hw2⟩, ?_, ?_, ?_, ?_⟩
  · intro e he
    exact hw1 e (List.mem_filter.mp he).1
  · exact List.Nodup.sublist (List.Sublist.map _ (List.filter_sublist _)) hs
  · exact List.Nodup.sublist (List.Sublist.map _ (List.filter_sublist _)) ha
  · exact List.Nodup.sublist (List.Sublist.map _ (List.filter_sublist _)) hg
  · intro id hh
    obtain ⟨kv, hkv, hid⟩ := hh
    obtain ⟨hkv1, hkv2⟩ := List.mem_filter.mp hkv
    have hne : ¬ kv.1 = i := by simpa using hkv2
    obtain ⟨e, he, heid⟩ := hc id ⟨kv, hkv1, hid⟩
    refine ⟨e, List.mem_filter.mpr ⟨he, ?_⟩, heid⟩
    simp only [decide_eq_true_eq, heid]
    rw [← hid]
    exact hne

/-- The operation `updateState` preserves the invariant. -/
theorem Inv_updateState {α : Type} (ps : ProviderState α) (i : ConsumerId)
    (p : List (String × α)) (h : Inv ps) : Inv (updateState ps i p).1 := by
  obtain ⟨⟨hw1, hw2⟩, hs, ha, hg, hc⟩ := h
  unfold updateState
  cases hf : ps.state.find? (fun e => e.id = i) with
  | none => exact ⟨⟨hw1, hw2⟩, hs, ha, hg, hc⟩
  | some e =>
    dsimp only
    refine ⟨⟨?_, hw2⟩, ?_, ha, hg, ?_⟩
    · intro e' he'
      rw [List.mem_map] at he'
      obtain ⟨x, hx, rfl⟩ := he'
      have hkey : (if x.id = i then
          { x with value := JSValue.obj (spreadMerge x.value.fieldsOf p) }
        else x).id = x.id := by
        by_cases hxi : x.id = i <;> simp [hxi]
      rw [hkey]
      exact hw1 x hx
    · rw [map_keys_update ps.state _ (fun e => e.id) ?hkeys]
      · exact hs
      case hkeys =>
        intro x
        by_cases hxi : x.id = i <;> simp [hxi]
    · intro id hh
      obtain ⟨e', he', hid⟩ := hc id hh
      refine ⟨_, List.mem_map_of_mem _ he', ?_⟩
      show (if e'.id = i then
          { e' with value := JSValue.obj (spreadMerge e'.value.fieldsOf p) }
        else e').id = id
      by_cases hei : e'.id = i
      · rw [if_pos hei]
        exact hid
      · rw [if_neg hei]
        exact hid

/-- The operation `registerHook` preserves the invariant, provided a RegistryEntry is live
for its id. -/
theorem Inv_registerHook {α : Type} (ps : ProviderState α) (i : ConsumerId)
    (fn : HookToken) (h : Inv ps) (hlive : hasEntry ps i) :
    Inv (registerHook ps i fn) := by
  obtain ⟨⟨hw1, hw2⟩, hs, ha, hg, hc⟩ := h
  unfold registerHook setKey
  by_cases hany : ps.availableHooks.any (fun kv => kv.1 = i)
  · rw [if_pos hany]
    refine ⟨⟨hw1, hw2⟩, hs, ?_, hg, ?_⟩
    · rw [map_keys_update ps.availableHooks _ (fun kv => kv.1) ?hkeys]
      · exact ha
      case hkeys =>
        intro kv
        by_cases hk : kv.1 = i <;> simp [hk]
    · intro id hh
      obtain ⟨kv', hkv', hid⟩ := hh
      rw [List.mem_map] at hkv'
      obtain ⟨kv, hkv, rfl⟩ := hkv'
      have hkey : (if kv.1 = i then (i, fn) else kv).1 = kv.1 := by
        by_cases hk : kv.1 = i <;> simp [hk]
      rw [hkey] at hid
      exact hc id ⟨kv, hkv, hid⟩
  · rw [if_neg hany]
    refine ⟨⟨hw1, hw2⟩, hs, ?_, hg, ?_⟩
    · rw [List.map_append, List.map_singleton]
      refine nodup_append_singleton ha ?_
      intro hmem
      rw [List.mem_map] at hmem
      obtain ⟨kv, hkv, hid⟩ := hmem
      rw [List.any_eq_true] at hany
      exact hany ⟨kv, hkv, by simp [hid]⟩
    · intro id hh
      obtain ⟨kv', hkv', hid⟩ := hh
      rcases List.mem_append.mp hkv' with hin | hin
      · exact hc id ⟨kv', hin, hid⟩
      · rw [List.mem_singleton] at hin
        subst hin
        rw [← hid]
        exact hlive

/-- The operation `updateArgs` preserves the invariant. -/
theorem Inv_updateArgs {α : Type} (ps : ProviderState α) (i : ConsumerId)
    (a : List α) (fails : ListenerId → Bool) (h : Inv ps) :
    Inv (updateArgs ps i a fails).1 := by
  obtain ⟨⟨hw1, hw2⟩, hs, ha, hg, hc⟩ := h
  unfold updateArgs
  cases hf : ps.argSubscriptions.find? (fun s => s.id = i) with
  | none =>
    dsimp only
    refine ⟨⟨hw1, hw2⟩, hs, ha, ?_, hc⟩
    rw [List.map_append, List.map_singleton]
    refine nodup_append_singleton hg ?_
    intro hmem
    rw [List.mem_map] at hmem
    obtain ⟨s, hsmem, hsid⟩ := hmem
    rw [List.find?_eq_none] at hf
    exact hf s hsmem (by simp [hsid])
  | some sub =>
    dsimp only
    refine ⟨⟨hw1, hw2⟩, hs, ha, ?_, hc⟩
    rw [map_keys_update ps.argSubscriptions _ (fun s => s.id) ?hkeys]
    · exact hg
    case hkeys =>
      intro s
      by_cases hsi : s.id = i <;> simp [hsi]

/-- The operation `subscribeToArgs` preserves the invariant. -/
theorem Inv_subscribeToArgs {α : Type} (ps : ProviderState α)
    (i : ConsumerId) (c : ListenerId) (h : Inv ps) :
    Inv (subscribeToArgs ps i c).1 := by
  obtain ⟨⟨hw1, hw2⟩, hs, ha, hg, hc⟩ := h
  unfold subscribeToArgs
  cases hf : ps.argSubscriptions.find? (fun s => s.id = i) with
  | none =>
    dsimp only
    refine ⟨⟨hw1, hw2⟩, hs, ha, ?_, hc⟩
    rw [List.map_append, List.map_singleton]
    refine nodup_append_singleton hg ?_
    intro hmem
    rw [List.mem_map] at hmem
    obtain ⟨s, hsmem, hsid⟩ := hmem
    rw [List.find?_eq_none] at hf
    exact hf s hsmem (by simp [hsid])
  | some sub =>
    have hid : sub.id = i := by simpa using List.find?_some hf
    dsimp only
    refine ⟨⟨hw1, hw2⟩, hs, ha, ?_, hc⟩
    rw [map_keys_update ps.argSubscriptions _ (fun s => s.id) ?hkeys]
    · exact hg
    case hkeys =>
      intro s
      by_cases hsi : s.id = i
      · simp [hsi, hid]
      · simp [hsi]

/-- Every allowed operation preserves the invariant. -/
theorem Inv_applyOp {α : Type} (ps : ProviderState α) (op : Op α)
    (h : Inv ps) (hop : opAllowed ps op) : Inv (applyOp ps op) := by
  cases op with
  | subscribeOp n => exact Inv_subscribe ps n h
  | unsubscribeOp i => exact Inv_unsubscribe ps i h
  | updateStateOp i p => exact Inv_updateState ps i p h
  | registerHookOp i f => exact Inv_registerHook ps i f h hop
  | updateArgsOp i a => exact Inv_updateArgs ps i a _ h
  | subscribeToArgsOp i c => exact Inv_subscribeToArgs ps i c h

/-- The invariant holds in every state reachable under the protocol. -/
theorem Inv_of_reachable {α : Type} {ps : ProviderState α}
    (h : ReachableVia (initState α) ps) : Inv ps := by
  induction h with
  | refl => exact Inv_initState α
  | step op hre hop ih => exact Inv_applyOp _ op ih hop

/-- C10 counterexample: one `registerHook` store operation applied to the
empty provider state is a sequence of store operations whose resulting state
has an AvailableHooks entry for id 0 but no RegistryEntry for it, so the
containment does not hold over arbitrary operation sequences. -/
theorem registerHook_orphan_counterexample :
    hasHook (applyOp (initState Nat) (.registerHookOp 0 7)) 0 ∧
    ¬ hasEntry (applyOp (initState Nat) (.registerHookOp 0 7)) 0 := by
  constructor
  · exact ⟨(0, 7), by simp [applyOp, registerHook, setKey, initState], rfl⟩
  · rintro ⟨e, he, -⟩
    simp [applyOp, registerHook, initState] at he

/-- C10 amended: in every state reachable by store-operation sequences in
which `registerHook(id, ·)` is only invoked while a RegistryEntry for `id`
exists (as the Consumer Hook's still-mounted gating ensures), each
ConsumerId has at most one RegistryEntry, at most one ArgSubscription and at
most one AvailableHooks entry, and an AvailableHooks entry exists for an id
only if a RegistryEntry for that id also exists. -/
theorem stores_invariant {α : Type} (ps : ProviderState α)
    (h : ReachableVia (initState α) ps) :
    (ps.state.map (fun e => e.id)).Nodup ∧
    (ps.availableHooks.map (fun kv => kv.1)).Nodup ∧
    (ps.argSubscriptions.map (fun s => s.id)).Nodup ∧
    (∀ id, hasHook ps id → hasEntry ps id) :=
  (Inv_of_reachable h).2

/-- C10 amended, witness: subscribe then register the loaded hook for the
allocated id 0. -/
theorem stores_invariant_witness :
    ((applyOp (applyOp (initState Nat) (.subscribeOp 5))
        (.registerHookOp 0 7)).state.map (fun e => e.id)).Nodup ∧
    ((applyOp (applyOp (initState Nat) (.subscribeOp 5))
        (.registerHookOp 0 7)).availableHooks.map (fun kv => kv.1)).Nodup ∧
    ((applyOp (applyOp (initState Nat) (.subscribeOp 5))
        (.registerHookOp 0 7)).argSubscriptions.map
          (fun s => s.id)).Nodup ∧
    (∀ id, hasHook (applyOp (applyOp (initState Nat) (.subscribeOp 5))
        (.registerHookOp 0 7)) id →
      hasEntry (applyOp (applyOp (initState Nat) (.subscribeOp 5))
        (.registerHookOp 0 7)) id) :=
  stores_invariant _
    (ReachableVia.step _
      (ReachableVia.step _ (ReachableVia.refl _) trivial)
      (show hasEntry (applyOp (initState Nat) (.subscribeOp 5)) 0 by decide))

/-- C1: after `unsubscribe` completes there is no RegistryEntry, no
ArgSubscription and no AvailableHooks entry for the id, and a second
`unsubscribe` call is a no-op leaving all three stores unchanged. -/
theorem unsubscribe_clears_and_idempotent {α : Type} (ps : ProviderState α)
    (id : ConsumerId) :
    lookupEntry (unsubscribe ps id) id = none ∧
    lookupSub (unsubscribe ps id) id = none ∧
    lookupHook (unsubscribe ps id) id = none ∧
    unsubscribe (unsubscribe ps id) id = unsubscribe ps id := by
  refine ⟨?_, ?_, ?_, ?_⟩
  · simp [lookupEntry, unsubscribe, List.find?_eq_none]
  · simp [lookupSub, unsubscribe, List.find?_eq_none]
  · simp [lookupHook, unsubscribe, List.find?_eq_none]
  · simp [unsubscribe, List.filter_filter]

end RemoteHooks
